import Mathlib

/-
Verification of the aggregation pipeline of `template-switch-statistics`.

Shallow embedding conventions:
* `f64` values are modelled as exact rationals (`ℚ`) wherever the source only
  adds, subtracts, multiplies, divides and compares, and as real numbers (`ℝ`)
  for the transcendental axis transforms (`powf`, `log10`).
* `f64::INFINITY` (used only as the start value of the min fold) is modelled by
  `Option ℚ` with `none` standing for the infinite start value.
* Panics (`assert!`, `unwrap`, `todo!`) are modelled by `Option`/`Except`
  results, with the `Except.error` payload carrying the diagnostic content.
* Rust's `BTreeMap` is modelled as an association list ordered by the map key;
  the `get_mut`-push-or-insert pattern of the source becomes `btreePush`.
-/

namespace TemplateSwitchStatistics

/- ===================== src/axis_transform.rs ===================== -/

/-- The `AxisTransform` enum of `src/axis_transform.rs`. -/
inductive AxisTransform where
  | PolynomialRoot (degree : ℝ)
  | Log
  | Linear

/-- `AxisTransform::apply` (src/axis_transform.rs lines 10-16):
`PolynomialRoot` is `input.powf(1.0 / degree)`, `Log` is `input.log10()`,
`Linear` is the identity. -/
noncomputable def AxisTransform.apply : AxisTransform → ℝ → ℝ
  | .PolynomialRoot degree, input => input ^ (1 / degree)
  | .Log, input => Real.logb 10 input
  | .Linear, input => input

/-- `AxisTransform::apply_inverse` (src/axis_transform.rs lines 18-24):
`PolynomialRoot` is `input.powf(degree)`, `Log` is `10.0f64.powf(input)`,
`Linear` is the identity. -/
noncomputable def AxisTransform.apply_inverse : AxisTransform → ℝ → ℝ
  | .PolynomialRoot degree, input => input ^ degree
  | .Log, input => (10 : ℝ) ^ input
  | .Linear, input => input

/-- The valid domain of each transform variant as stated by the specification:
`Log` requires a positive input, `PolynomialRoot` requires a nonnegative input
and a degree of at least one, `Linear` is total. -/
def AxisTransform.validInput : AxisTransform → ℝ → Prop
  | .PolynomialRoot degree, x => 1 ≤ degree ∧ 0 ≤ x
  | .Log, x => 0 < x
  | .Linear, _ => True

/- ===================== src/statistics_file.rs ===================== -/

/-- `StatisticsFile` (src/statistics_file.rs lines 14-24), reduced to the two
fields the aggregation pipeline reads: the identity `parameters` (type
parameter `P`, standing for `AlignmentParameters`) and the measurement payload
`statistics` (type parameter `S`, standing for the external
`lib_tsalign::AlignmentStatistics`, whose internals live outside this
repository). -/
structure StatisticsFile (P S : Type) where
  parameters : P
  statistics : S
deriving DecidableEq

/-- `MergedStatisticsFile` (src/statistics_file.rs lines 55-64), reduced to the
fields the claims under verification read: the full list of contained raw
measurement payloads and the representative `key`.  The `min`/`max`/`mean`/
`median` fields are folds of combinators of the external `lib_tsalign` crate
and are not modelled. -/
structure MergedStatisticsFile (S : Type) where
  contained_statistics : List S
  key : ℚ
deriving DecidableEq

/-- `MergedStatisticsFile::from_statistics_files` (src/statistics_file.rs
lines 108-141) restricted to the modelled fields: `contained_statistics`
receives one entry (the `statistics` payload) per input file, in input order,
and the representative `key` is stored unchanged.  The source's
`assert!(!statistics_files.is_empty())` is established as an invariant of the
caller (`merge_and_sort_files_in_groups` only builds nonempty partitions). -/
def MergedStatisticsFile.from_statistics_files {P S : Type} (key : ℚ)
    (statistics_files : List (StatisticsFile P S)) : MergedStatisticsFile S :=
  { contained_statistics := statistics_files.map (fun file => file.statistics)
    key := key }

/- ===================== src/main.rs ===================== -/

/-- The `BTreeMap` pattern `if let Some(group) = map.get_mut(&k) {
group.push(x) } else { map.insert(k, vec![x]) }` used by `group_files`
(src/main.rs lines 407-414) and by the merge loop (lines 469-484).  The map is
an association list kept in ascending key order (the iteration order of a
`BTreeMap`); `lt` is the strict order of the key's `Ord` instance. -/
def btreePush {K A : Type} [DecidableEq K] (lt : K → K → Bool) (k : K) (x : A) :
    List (K × List A) → List (K × List A)
  | [] => [(k, [x])]
  | (k', xs) :: rest =>
    if k = k' then (k', xs ++ [x]) :: rest
    else if lt k k' then (k, [x]) :: (k', xs) :: rest
    else (k', xs) :: btreePush lt k x rest

/-- The grouping loop of `group_files` (src/main.rs lines 405-414), before the
equal-size assertion. -/
def raw_groups {G F : Type} [DecidableEq G] (ltG : G → G → Bool)
    (statistics_files : List F) (group_name_fn : F → G) : List (G × List F) :=
  statistics_files.foldl (fun groups file => btreePush ltG (group_name_fn file) file groups) []

/-- `group_files` (src/main.rs lines 399-443).  The equal-size
`assert!` (lines 416-434) is modelled as `Except.error` carrying the content
of the panic diagnostic: the name and size of every group.  The inner fold is
the source's `groups.values().skip(1).fold((first_len, true), ...)`.  On empty
input the source panics at `groups.values().next().unwrap()`; this is the
`Except.error []` case. -/
def group_files {G F : Type} [DecidableEq G] (ltG : G → G → Bool)
    (statistics_files : List F) (group_name_fn : F → G) :
    Except (List (G × ℕ)) (List (G × List F)) :=
  match raw_groups ltG statistics_files group_name_fn with
  | [] => Except.error []
  | g0 :: rest =>
    let check := rest.foldl (fun (p : ℕ × Bool) gv => (p.1, p.2 && (gv.2.length == p.1)))
      (g0.2.length, true)
    if check.2 then Except.ok (g0 :: rest)
    else Except.error ((g0 :: rest).map (fun gv => (gv.1, gv.2.length)))

/-- The body of the min component of the key fold (src/main.rs lines 457-460):
`let min = if min > value { value } else { min }`, with `none` modelling the
`f64::INFINITY` start value, which is greater than every value. -/
def minFold (acc : Option ℚ) (value : ℚ) : Option ℚ :=
  match acc with
  | none => some value
  | some m => if m > value then some value else some m

/-- The body of the max component of the key fold (src/main.rs lines 457-460):
`let max = if max < value { value } else { max }`. -/
def maxFold (acc : ℚ) (value : ℚ) : ℚ :=
  if acc < value then value else acc

/-- The global key fold of `merge_and_sort_files_in_groups` (src/main.rs lines
453-461): `fold((f64::INFINITY, 0.0), |(min, max), value| ...)`.  Note the
start value of the max component is `0.0`, not negative infinity. -/
def minMaxFold (keys : List ℚ) : Option ℚ × ℚ :=
  keys.foldl (fun mm value => (minFold mm.1 value, maxFold mm.2 value)) (none, 0)

/-- The key list the global fold runs over (src/main.rs lines 453-456):
`groups.values().flat_map(|group| group.iter()).map(|file| key_fn(&file.parameters))`. -/
def allKeys {G P S : Type} (groups : List (G × List (StatisticsFile P S)))
    (key_fn : P → ℚ) : List ℚ :=
  groups.flatMap (fun gv => gv.2.map (fun file => key_fn file.parameters))

/-- Bucket assignment (src/main.rs lines 470-476):
`((key - min_key) * B as f64 / (max_key - min_key)).floor() as usize`
followed by `.max(0).min(B - 1)`.  The `as usize` cast of Rust saturates:
negative values become `0` (here `Int.toNat`), and in the degenerate case
`min_key == max_key` the source computes `0.0 / 0.0 = NaN` for the only
reachable key `key = min_key = max_key`, and `NaN as usize` is `0`, which
agrees with the `0 / 0 = 0` convention of `ℚ` used here. -/
def bucket_index (key_bucket_amount : ℕ) (min_key max_key key : ℚ) : ℕ :=
  let bi := (key - min_key) * (key_bucket_amount : ℚ) / (max_key - min_key)
  min (max (Int.toNat (Int.floor bi)) 0) (key_bucket_amount - 1)

/-- The strict order on `Option<usize>` bucket indices, following Rust's
`Ord` for `Option`: `None` sorts before `Some`. -/
def optionNatLt : Option ℕ → Option ℕ → Bool
  | none, none => false
  | none, some _ => true
  | some _, none => false
  | some a, some b => a < b

/-- The strict lexicographic order on the merge key
`(AlignmentParameters, Option<usize>)` used by the merge `BTreeMap`
(src/main.rs line 478), given the strict order `ltP` of `P`. -/
def mergeKeyLt {P : Type} [DecidableEq P] (ltP : P → P → Bool)
    (a b : P × Option ℕ) : Bool :=
  ltP a.1 b.1 || (decide (a.1 = b.1) && optionNatLt a.2 b.2)

/-- The per-group merge loop of `merge_and_sort_files_in_groups` (src/main.rs
lines 467-502): partition the group's files by `(merge_key, bucket_index)`
into a `BTreeMap`, then map each partition to a `MergedStatisticsFile` whose
key is the bucket midpoint mapped back into the key range when a bucket index
is present (`(bucket_index + 0.5) / B * (max_key - min_key) + min_key`, where
`B` is `key_bucket_amount.unwrap()`, modelled by `getD 0` whose default is
unreachable because a bucket index exists only when `key_bucket_amount` is
`some`), and `key_fn(&parameters)` of the merge key otherwise. -/
def merge_group {P S : Type} [DecidableEq P] (ltP : P → P → Bool)
    (key_bucket_amount : Option ℕ) (min_key max_key : ℚ) (key_fn : P → ℚ)
    (merge_key_fn : StatisticsFile P S → P) (group : List (StatisticsFile P S)) :
    List (MergedStatisticsFile S) :=
  let merged_group := group.foldl (fun m file =>
    btreePush (mergeKeyLt ltP)
      (merge_key_fn file,
       key_bucket_amount.map (fun amount =>
         bucket_index amount min_key max_key (key_fn file.parameters)))
      file m) []
  merged_group.map (fun e =>
    let key := (e.1.2.map (fun (bucketIdx : ℕ) =>
      ((bucketIdx : ℚ) + 0.5) / ((key_bucket_amount.getD 0 : ℕ) : ℚ)
        * (max_key - min_key) + min_key)).getD (key_fn e.1.1)
    MergedStatisticsFile.from_statistics_files key e.2)

/-- Insertion step of the modelled sort.  The source sorts each group with
`Vec::sort_unstable_by_key` (src/main.rs line 518), whose contract is an
ascending-by-key permutation with unspecified order among equal keys; the
model fixes insertion sort (which produces such a permutation), and no theorem
below depends on the order among equal keys. -/
def insertSortedByKey {A : Type} (sort_key_fn : A → ℚ) (x : A) : List A → List A
  | [] => [x]
  | y :: ys =>
    if sort_key_fn x ≤ sort_key_fn y then x :: y :: ys
    else y :: insertSortedByKey sort_key_fn x ys

/-- The sort applied to one group's merged list (see `insertSortedByKey`). -/
def sortByKey {A : Type} (sort_key_fn : A → ℚ) (l : List A) : List A :=
  l.foldr (insertSortedByKey sort_key_fn) []

/-- `sort_groups` (src/main.rs lines 510-520): sort every group's list by the
sort key. -/
def sort_groups {G A : Type} (groups : List (G × List A)) (sort_key_fn : A → ℚ) :
    List (G × List A) :=
  groups.map (fun gv => (gv.1, sortByKey sort_key_fn gv.2))

/-- `merge_and_sort_files_in_groups` (src/main.rs lines 445-508).  The
`assert!(!group.is_empty())` of line 466 is modelled by returning `none` when
any group is empty.  The returned min key is `Option ℚ` because the source
returns the raw fold result, which is `f64::INFINITY` when there are no
records at all (only possible when `groups` is empty, since otherwise the
empty-group assertion fires first); `mm.1.getD 0` inside is then unreachable. -/
def merge_and_sort_files_in_groups {G P S : Type} [DecidableEq P]
    (ltP : P → P → Bool) (groups : List (G × List (StatisticsFile P S)))
    (key_bucket_amount : Option ℕ) (key_fn : P → ℚ)
    (merge_key_fn : StatisticsFile P S → P) :
    Option (List (G × List (MergedStatisticsFile S)) × Option ℚ × ℚ) :=
  let mm := minMaxFold (allKeys groups key_fn)
  if groups.all (fun gv => !gv.2.isEmpty) then
    some
      (sort_groups
        (groups.map (fun gv =>
          (gv.1, merge_group ltP key_bucket_amount (mm.1.getD 0) mm.2 key_fn merge_key_fn gv.2)))
        (fun file => file.key),
       mm.1, mm.2)
  else none

/-- The key-range widening of `grouped_linear_bar_plot` (src/main.rs lines
303-310): when `min_key == max_key`, widen to `min_key - 0.5` and
`max_key + 0.5`. -/
def widen_key_range (min_key max_key : ℚ) : ℚ × ℚ :=
  if min_key = max_key then (min_key - 0.5, max_key + 0.5) else (min_key, max_key)

/-- `f64::MAX`, exactly: `(2 - 2^{-52}) * 2^{1023}`.  It is the start value of
the min component of the value fold of `grouped_linear_bar_plot`. -/
def f64_MAX : ℚ := 2 ^ 1024 - 2 ^ 971

/-- The global value fold of `grouped_linear_bar_plot` (src/main.rs lines
277-285): `fold((f64::MAX, 0.0), ...)` over
`value_fn(&file.max_statistics)` of every merged file of every group. -/
def minMaxValues (values : List ℚ) : ℚ × ℚ :=
  values.foldl (fun mm value =>
    (if mm.1 > value then value else mm.1, if mm.2 < value then value else mm.2))
    (f64_MAX, 0)

/-- The epsilon threshold of `grouped_linear_bar_plot` (src/main.rs lines
286-290): `min_value.abs().max(max_value.abs()).max(max_value - min_value) * 1e-12`. -/
def value_epsilon (min_value max_value : ℚ) : ℚ :=
  max (max |min_value| |max_value|) (max_value - min_value) * (1 / 10 ^ 12)

/-- The epsilon threshold computed once from the global value fold over the
flattened per-group lists of merged values (src/main.rs lines 277-290); every
box of every group is drawn against this single threshold. -/
def global_value_epsilon (group_values : List (List ℚ)) : ℚ :=
  let mm := minMaxValues group_values.flatten
  value_epsilon mm.1 mm.2

/-- The epsilon-suppression map applied to each quartile value before drawing
(src/main.rs lines 375-381): values below the threshold become exactly `0.0`
and are not transformed; other values get the axis transform applied. -/
noncomputable def suppress_then_transform (value_transform : AxisTransform)
    (eps : ℚ) (value : ℚ) : ℝ :=
  if value < eps then 0 else value_transform.apply (value : ℝ)

/-- The smallest positive normal `f64`, `2^{-1022}`; positive values strictly
below it are subnormal. -/
def f64_min_positive_normal : ℚ := 1 / 2 ^ 1022

/-- Rounding of a nonnegative rational to the nearest integer, ties to even:
the rounding Rust's `format!` applies when truncating to a fixed number of
decimals. -/
def roundHalfEven (q : ℚ) : ℤ :=
  let f := Int.floor q
  let frac := q - (f : ℚ)
  if frac < 1 / 2 then f
  else if 1 / 2 < frac then f + 1
  else if f % 2 = 0 then f else f + 1

/-- The character of a single decimal digit. -/
def digitChar (n : ℕ) : Char :=
  if n = 1 then '1' else if n = 2 then '2' else if n = 3 then '3'
  else if n = 4 then '4' else if n = 5 then '5' else if n = 6 then '6'
  else if n = 7 then '7' else if n = 8 then '8' else if n = 9 then '9' else '0'

/-- The decimal digits of a natural number, most significant first, collected
into the accumulator; the first argument is fuel bounding the digit count. -/
def natDigits : ℕ → ℕ → List Char → List Char
  | 0, _, acc => acc
  | fuel + 1, n, acc =>
    if n = 0 then acc else natDigits fuel (n / 10) (digitChar (n % 10) :: acc)

/-- Decimal rendering of a natural number (15 digits of fuel suffice for every
value `format_value` accepts, which are below `10^12`). -/
def natToString (n : ℕ) : String :=
  if n = 0 then "0" else String.mk (natDigits 15 n [])

/-- Rust's `format!("{:.prec}", x)` for a nonnegative finite `x`: round
half-to-even at `prec` decimals and print exactly `prec` fractional digits
(none, and no decimal point, when `prec = 0`). -/
def fmtDecimals (prec : ℕ) (q : ℚ) : String :=
  let scaled := (roundHalfEven (q * 10 ^ prec)).toNat
  if prec = 0 then natToString scaled
  else
    let ip := scaled / 10 ^ prec
    let fp := scaled % 10 ^ prec
    let fpStr := natToString fp
    natToString ip ++ "." ++ String.mk (List.replicate (prec - fpStr.length) '0') ++ fpStr

/-- `format_value` (src/main.rs lines 522-554).  The initial
`assert!(value.is_sign_positive() && value.is_finite() && !value.is_nan() &&
!value.is_subnormal())` and the final `todo!("Support larger values")` are
modelled by `none`; NaN and the infinities have no `ℚ` representative, so of
the assert only the negative-sign and subnormal conditions are expressible. -/
def format_value (value : ℚ) : Option String :=
  if value < 0 then none
  else if value ≠ 0 ∧ |value| < f64_min_positive_normal then none
  else if value = 0 then some ("0")
  else if value < 10 ^ 3 then some (fmtDecimals 0 value)
  else if value < 10 ^ 4 then some (fmtDecimals 2 (value / 10 ^ 3) ++ "k")
  else if value < 10 ^ 5 then some (fmtDecimals 1 (value / 10 ^ 3) ++ "k")
  else if value < 10 ^ 6 then some (fmtDecimals 0 (value / 10 ^ 3) ++ "k")
  else if value < 10 ^ 7 then some (fmtDecimals 2 (value / 10 ^ 6) ++ "M")
  else if value < 10 ^ 8 then some (fmtDecimals 1 (value / 10 ^ 6) ++ "M")
  else if value < 10 ^ 9 then some (fmtDecimals 0 (value / 10 ^ 6) ++ "M")
  else if value < 10 ^ 10 then some (fmtDecimals 2 (value / 10 ^ 9) ++ "G")
  else if value < 10 ^ 11 then some (fmtDecimals 1 (value / 10 ^ 9) ++ "G")
  else if value < 10 ^ 12 then some (fmtDecimals 0 (value / 10 ^ 9) ++ "G")
  else none

/- ===================== theorems ===================== -/

/-- A `btreePush` never produces the empty map. -/
theorem btreePush_ne_nil {K A : Type} [DecidableEq K] (lt : K → K → Bool) (k : K) (x : A) :
    ∀ m : List (K × List A), btreePush lt k x m ≠ []
  | [] => by simp [btreePush]
  | (k', xs) :: rest => by
    by_cases h1 : k = k' <;> by_cases h2 : lt k k' <;> simp [btreePush, h1, h2]

/-- A `btreePush` grows the total number of stored elements by exactly one. -/
theorem btreePush_sum_lengths {K A : Type} [DecidableEq K] (lt : K → K → Bool) (k : K) (x : A) :
    ∀ m : List (K × List A),
      ((btreePush lt k x m).map (fun e => e.2.length)).sum
        = ((m.map (fun e => e.2.length)).sum) + 1
  | [] => by simp [btreePush]
  | (k', xs) :: rest => by
    by_cases h1 : k = k'
    · simp only [btreePush, if_pos h1, List.map_cons, List.sum_cons, List.length_append,
        List.length_singleton]
      omega
    · by_cases h2 : lt k k'
      · simp only [btreePush, if_neg h1, if_pos h2, List.map_cons, List.sum_cons,
          List.length_singleton]
        omega
      · have ih := btreePush_sum_lengths lt k x rest
        simp only [btreePush, if_neg h1, if_neg h2, List.map_cons, List.sum_cons, ih]
        omega

/-- Folding a list of elements into a map with `btreePush` adds one stored
element per input element. -/
theorem foldl_btreePush_sum_lengths {K A : Type} [DecidableEq K] (lt : K → K → Bool)
    (keyOf : A → K) :
    ∀ (files : List A) (m : List (K × List A)),
      (((files.foldl (fun acc f => btreePush lt (keyOf f) f acc) m).map
          (fun e => e.2.length)).sum)
        = ((m.map (fun e => e.2.length)).sum) + files.length
  | [], m => by simp
  | f :: files, m => by
    rw [List.foldl_cons, foldl_btreePush_sum_lengths lt keyOf files,
      btreePush_sum_lengths, List.length_cons]
    omega

/-- Folding into a nonempty map keeps it nonempty. -/
theorem foldl_btreePush_ne_nil {K A : Type} [DecidableEq K] (lt : K → K → Bool)
    (keyOf : A → K) :
    ∀ (files : List A) (m : List (K × List A)), m ≠ [] →
      files.foldl (fun acc f => btreePush lt (keyOf f) f acc) m ≠ []
  | [], _, h => h
  | f :: files, m, _ => by
    rw [List.foldl_cons]
    exact foldl_btreePush_ne_nil lt keyOf files _ (btreePush_ne_nil lt (keyOf f) f m)

/-- A `btreePush` preserves the map invariant that every entry is nonempty
and holds only elements whose key is the entry's key. -/
theorem btreePush_inv {K A : Type} [DecidableEq K] (lt : K → K → Bool) (keyOf : A → K)
    (k : K) (x : A) (hx : keyOf x = k) :
    ∀ m : List (K × List A),
      (∀ e ∈ m, e.2 ≠ [] ∧ ∀ y ∈ e.2, keyOf y = e.1) →
      ∀ e ∈ btreePush lt k x m, e.2 ≠ [] ∧ ∀ y ∈ e.2, keyOf y = e.1
  | [], _, e, he => by
    simp only [btreePush, List.mem_singleton] at he
    subst he
    exact ⟨by simp, by simpa using hx⟩
  | (k', xs) :: rest, hm, e, he => by
    by_cases h1 : k = k'
    · rw [btreePush, if_pos h1] at he
      rcases List.mem_cons.1 he with rfl | hrest
      · obtain ⟨-, hall⟩ := hm (k', xs) (List.mem_cons_self _ _)
        refine ⟨by simp, ?_⟩
        intro y hy
        rcases List.mem_append.1 hy with hy | hy
        · exact hall y hy
        · rw [List.mem_singleton.1 hy, hx, h1]
      · exact hm e (List.mem_cons_of_mem _ hrest)
    · by_cases h2 : lt k k'
      · rw [btreePush, if_neg h1, if_pos h2] at he
        rcases List.mem_cons.1 he with rfl | hrest
        · exact ⟨by simp, by simpa using hx⟩
        · exact hm e hrest
      · rw [btreePush, if_neg h1, if_neg h2] at he
        rcases List.mem_cons.1 he with rfl | hrest
        · exact hm (k', xs) (List.mem_cons_self _ _)
        · exact btreePush_inv lt keyOf k x hx rest
            (fun e' he' => hm e' (List.mem_cons_of_mem _ he')) e hrest

/-- Folding with `btreePush` preserves the map invariant of `btreePush_inv`. -/
theorem foldl_btreePush_inv {K A : Type} [DecidableEq K] (lt : K → K → Bool)
    (keyOf : A → K) :
    ∀ (files : List A) (m : List (K × List A)),
      (∀ e ∈ m, e.2 ≠ [] ∧ ∀ y ∈ e.2, keyOf y = e.1) →
      ∀ e ∈ files.foldl (fun acc f => btreePush lt (keyOf f) f acc) m,
        e.2 ≠ [] ∧ ∀ y ∈ e.2, keyOf y = e.1
  | [], _, hm => hm
  | f :: files, m, hm => by
    rw [List.foldl_cons]
    exact foldl_btreePush_inv lt keyOf files _ (btreePush_inv lt keyOf (keyOf f) f rfl m hm)

/-- Inserting into the sorted list produces a permutation of consing. -/
theorem insertSortedByKey_perm {A : Type} (sort_key_fn : A → ℚ) (x : A) :
    ∀ l : List A, (insertSortedByKey sort_key_fn x l).Perm (x :: l)
  | [] => List.Perm.refl _
  | y :: ys => by
    rw [insertSortedByKey]
    by_cases h : sort_key_fn x ≤ sort_key_fn y
    · rw [if_pos h]
    · rw [if_neg h]
      exact ((insertSortedByKey_perm sort_key_fn x ys).cons y).trans (List.Perm.swap x y ys)

/-- The modelled sort permutes its input. -/
theorem sortByKey_perm {A : Type} (sort_key_fn : A → ℚ) :
    ∀ l : List A, (sortByKey sort_key_fn l).Perm l
  | [] => List.Perm.refl _
  | x :: l => by
    rw [sortByKey, List.foldr_cons]
    exact (insertSortedByKey_perm sort_key_fn x _).trans ((sortByKey_perm sort_key_fn l).cons x)

/-- A fold whose body acts componentwise on a pair is the pair of the
component folds. -/
theorem foldl_pair {α β γ : Type} (f : α → γ → α) (g : β → γ → β) :
    ∀ (l : List γ) (a : α) (b : β),
      l.foldl (fun p v => (f p.1 v, g p.2 v)) (a, b) = (l.foldl f a, l.foldl g b)
  | [], _, _ => rfl
  | v :: l, a, b => foldl_pair f g l (f a v) (g b v)

/-- The min component of the source's key fold computes `min` once the
accumulator is finite. -/
theorem minFold_some (m v : ℚ) : minFold (some m) v = some (min m v) := by
  simp only [minFold]
  rcases lt_or_le v m with h | h
  · rw [if_pos h, min_eq_right h.le]
  · rw [if_neg (not_lt.2 h), min_eq_left h]

/-- The max component of the source's key fold computes `max`. -/
theorem maxFold_eq (b v : ℚ) : maxFold b v = max b v := by
  simp only [maxFold]
  rcases lt_or_le b v with h | h
  · rw [if_pos h, max_eq_right h.le]
  · rw [if_neg (not_lt.2 h), max_eq_left h]

/-- Folding `minFold` from a finite accumulator folds `min`. -/
theorem foldl_minFold_some : ∀ (l : List ℚ) (a : ℚ),
    l.foldl minFold (some a) = some (l.foldl min a)
  | [], _ => rfl
  | v :: l, a => by
    rw [List.foldl_cons, List.foldl_cons, minFold_some, foldl_minFold_some]

/-- Folding `maxFold` folds `max`. -/
theorem foldl_maxFold : ∀ (l : List ℚ) (a : ℚ), l.foldl maxFold a = l.foldl max a
  | [], _ => rfl
  | v :: l, a => by
    rw [List.foldl_cons, List.foldl_cons, maxFold_eq, foldl_maxFold]

/-- A `min`-fold is a lower bound of its start value and all elements. -/
theorem foldl_min_le : ∀ (l : List ℚ) (a : ℚ),
    l.foldl min a ≤ a ∧ ∀ x ∈ l, l.foldl min a ≤ x
  | [], a => ⟨le_refl a, by simp⟩
  | v :: l, a => by
    obtain ⟨h1, h2⟩ := foldl_min_le l (min a v)
    rw [List.foldl_cons]
    refine ⟨le_trans h1 (min_le_left _ _), ?_⟩
    intro x hx
    rcases List.mem_cons.1 hx with rfl | hx
    · exact le_trans h1 (min_le_right _ _)
    · exact h2 x hx

/-- A `min`-fold returns its start value or an element of the list. -/
theorem foldl_min_mem : ∀ (l : List ℚ) (a : ℚ), l.foldl min a = a ∨ l.foldl min a ∈ l
  | [], a => Or.inl rfl
  | v :: l, a => by
    rw [List.foldl_cons]
    rcases foldl_min_mem l (min a v) with h | h
    · rcases min_choice a v with hm | hm
      · exact Or.inl (by rw [h, hm])
      · exact Or.inr (by rw [h, hm]; exact List.mem_cons_self v l)
    · exact Or.inr (List.mem_cons_of_mem v h)

/-- A `max`-fold is an upper bound of its start value and all elements. -/
theorem foldl_max_ge : ∀ (l : List ℚ) (a : ℚ),
    a ≤ l.foldl max a ∧ ∀ x ∈ l, x ≤ l.foldl max a
  | [], a => ⟨le_refl a, by simp⟩
  | v :: l, a => by
    obtain ⟨h1, h2⟩ := foldl_max_ge l (max a v)
    rw [List.foldl_cons]
    refine ⟨le_trans (le_max_left _ _) h1, ?_⟩
    intro x hx
    rcases List.mem_cons.1 hx with rfl | hx
    · exact le_trans (le_max_right _ _) h1
    · exact h2 x hx

/-- A `max`-fold returns its start value or an element of the list. -/
theorem foldl_max_mem : ∀ (l : List ℚ) (a : ℚ), l.foldl max a = a ∨ l.foldl max a ∈ l
  | [], a => Or.inl rfl
  | v :: l, a => by
    rw [List.foldl_cons]
    rcases foldl_max_mem l (max a v) with h | h
    · rcases max_choice a v with hm | hm
      · exact Or.inl (by rw [h, hm])
      · exact Or.inr (by rw [h, hm]; exact List.mem_cons_self v l)
    · exact Or.inr (List.mem_cons_of_mem v h)

/-- A `max`-fold started at `max a b` pulls `a` out of the fold. -/
theorem foldl_max_shift : ∀ (l : List ℚ) (a b : ℚ),
    l.foldl max (max a b) = max a (l.foldl max b)
  | [], _, _ => rfl
  | v :: l, a, b => by
    rw [List.foldl_cons, List.foldl_cons, max_assoc, foldl_max_shift]

/-- The source's key fold, characterized: the min component is the `min`-fold
from the first key, the max component is `max 0` of the `max`-fold from the
first key (the fold starts at `(f64::INFINITY, 0.0)`). -/
theorem minMaxFold_cons (k : ℚ) (ks : List ℚ) :
    minMaxFold (k :: ks) = (some (ks.foldl min k), max 0 (ks.foldl max k)) := by
  rw [minMaxFold, foldl_pair, List.foldl_cons, List.foldl_cons,
    show minFold none k = some k from rfl, foldl_minFold_some, foldl_maxFold,
    show maxFold 0 k = max 0 k from by rw [maxFold_eq], foldl_max_shift]

/-- A `min`-fold over a constant list is the constant. -/
theorem foldl_min_const : ∀ (l : List ℚ) (a : ℚ), (∀ x ∈ l, x = a) → l.foldl min a = a
  | [], _, _ => rfl
  | v :: l, a, h => by
    rw [List.foldl_cons, h v (List.mem_cons_self v l), min_self]
    exact foldl_min_const l a (fun x hx => h x (List.mem_cons_of_mem v hx))

/-- A `max`-fold over a constant list is the constant. -/
theorem foldl_max_const : ∀ (l : List ℚ) (a : ℚ), (∀ x ∈ l, x = a) → l.foldl max a = a
  | [], _, _ => rfl
  | v :: l, a, h => by
    rw [List.foldl_cons, h v (List.mem_cons_self v l), max_self]
    exact foldl_max_const l a (fun x hx => h x (List.mem_cons_of_mem v hx))

/-- C4: for every `AxisTransform` variant (`Linear`; `Log`; `PolynomialRoot`
with degree at least one) and every `x` in that variant's valid domain
(`x > 0` for `Log`, `x ≥ 0` for `PolynomialRoot`),
`apply_inverse (apply x) = x`. -/
theorem axis_transform_roundtrip (t : AxisTransform) (x : ℝ)
    (h : t.validInput x) : t.apply_inverse (t.apply x) = x := by
  cases t with
  | Linear => rfl
  | Log => exact Real.rpow_logb (by norm_num) (by norm_num) h
  | PolynomialRoot degree =>
    obtain ⟨hd, hx⟩ := h
    have hd0 : degree ≠ 0 := by intro h0; rw [h0] at hd; norm_num at hd
    show (x ^ (1 / degree)) ^ degree = x
    rw [← Real.rpow_mul hx, one_div_mul_cancel hd0, Real.rpow_one]

/-- Witness for C4 at the concrete inputs `Log, x = 1` and
`PolynomialRoot 2, x = 4`. -/
theorem axis_transform_roundtrip_witness :
    AxisTransform.Log.apply_inverse (AxisTransform.Log.apply 1) = 1 ∧
      (AxisTransform.PolynomialRoot 2).apply_inverse
        ((AxisTransform.PolynomialRoot 2).apply 4) = 4 :=
  ⟨axis_transform_roundtrip AxisTransform.Log 1 one_pos,
   axis_transform_roundtrip (AxisTransform.PolynomialRoot 2) 4
     ⟨by norm_num, by norm_num⟩⟩

/-- C1: with a requested bucket count `B ≥ 1` and a global key range
`min_key < max_key`, the bucket index of a record with key `k` in the range
equals `floor((k - min_key) * B / (max_key - min_key))` clamped to
`[0, B-1]`; in particular `k = max_key` lands in bucket `B - 1` and
`k = min_key` lands in bucket `0`. -/
theorem bucket_assignment (B : ℕ) (min_key max_key k : ℚ)
    (hB : 1 ≤ B) (hrange : min_key < max_key) (hk₁ : min_key ≤ k) (hk₂ : k ≤ max_key) :
    (bucket_index B min_key max_key k : ℤ)
        = max 0 (min (Int.floor ((k - min_key) * (B : ℚ) / (max_key - min_key))) ((B : ℤ) - 1))
      ∧ bucket_index B min_key max_key max_key = B - 1
      ∧ bucket_index B min_key max_key min_key = 0 := by
  have hne : max_key - min_key ≠ 0 := sub_ne_zero.2 (ne_of_gt hrange)
  have hB1 : (1 : ℤ) ≤ (B : ℤ) := by exact_mod_cast hB
  refine ⟨?_, ?_, ?_⟩
  · simp only [bucket_index]
    have hq0 : 0 ≤ (k - min_key) * (B : ℚ) / (max_key - min_key) :=
      div_nonneg (mul_nonneg (by linarith) (by positivity)) (by linarith)
    have hf0 : 0 ≤ Int.floor ((k - min_key) * (B : ℚ) / (max_key - min_key)) :=
      Int.floor_nonneg.2 hq0
    rw [max_eq_left (Nat.zero_le _), max_eq_right (le_min hf0 (by omega)), Nat.cast_min,
      Int.toNat_of_nonneg hf0, Nat.cast_sub hB, Nat.cast_one]
  · simp only [bucket_index]
    have hq : (max_key - min_key) * (B : ℚ) / (max_key - min_key) = (B : ℚ) :=
      mul_div_cancel_left₀ _ hne
    rw [hq, Int.floor_natCast, Int.toNat_natCast, max_eq_left (Nat.zero_le _),
      min_eq_right (Nat.sub_le B 1)]
  · simp only [bucket_index]
    rw [sub_self, zero_mul, zero_div, Int.floor_zero, Int.toNat_zero, max_self,
      min_eq_left (Nat.zero_le _)]

/-- Witness for C1 at `B = 5`, `min_key = 0`, `max_key = 10`: key `10` lands
in bucket `4` (not `5`) and key `0` lands in bucket `0`. -/
theorem bucket_assignment_witness :
    bucket_index 5 0 10 10 = 4 ∧ bucket_index 5 0 10 0 = 0 :=
  ⟨(bucket_assignment 5 0 10 10 (by norm_num) (by norm_num) (by norm_num) (by norm_num)).2.1,
   (bucket_assignment 5 0 10 0 (by norm_num) (by norm_num) (by norm_num) (by norm_num)).2.2⟩

/-- C7: `format_value` formats zero as `"0"`, uses the k/M/G precision tiers
on the spec's examples (`999`, `1500`, `150000`, `2.5e9`), and fails fast
(modelled by `none`) on negative inputs, on subnormal inputs, and on values of
at least `10^12`. -/
theorem format_value_spec :
    format_value 0 = some ("0")
    ∧ format_value 999 = some ("999")
    ∧ format_value 1500 = some ("1.50k")
    ∧ format_value 150000 = some ("150k")
    ∧ format_value (25 * 10 ^ 8) = some ("2.50G")
    ∧ (∀ v : ℚ, 0 < v → f64_min_positive_normal ≤ v → v < 10 ^ 3 →
        format_value v = some (fmtDecimals 0 v))
    ∧ (∀ v : ℚ, 10 ^ 3 ≤ v → v < 10 ^ 4 →
        format_value v = some (fmtDecimals 2 (v / 10 ^ 3) ++ "k"))
    ∧ (∀ v : ℚ, 10 ^ 4 ≤ v → v < 10 ^ 5 →
        format_value v = some (fmtDecimals 1 (v / 10 ^ 3) ++ "k"))
    ∧ (∀ v : ℚ, 10 ^ 5 ≤ v → v < 10 ^ 6 →
        format_value v = some (fmtDecimals 0 (v / 10 ^ 3) ++ "k"))
    ∧ (∀ v : ℚ, 10 ^ 6 ≤ v → v < 10 ^ 7 →
        format_value v = some (fmtDecimals 2 (v / 10 ^ 6) ++ "M"))
    ∧ (∀ v : ℚ, 10 ^ 7 ≤ v → v < 10 ^ 8 →
        format_value v = some (fmtDecimals 1 (v / 10 ^ 6) ++ "M"))
    ∧ (∀ v : ℚ, 10 ^ 8 ≤ v → v < 10 ^ 9 →
        format_value v = some (fmtDecimals 0 (v / 10 ^ 6) ++ "M"))
    ∧ (∀ v : ℚ, 10 ^ 9 ≤ v → v < 10 ^ 10 →
        format_value v = some (fmtDecimals 2 (v / 10 ^ 9) ++ "G"))
    ∧ (∀ v : ℚ, 10 ^ 10 ≤ v → v < 10 ^ 11 →
        format_value v = some (fmtDecimals 1 (v / 10 ^ 9) ++ "G"))
    ∧ (∀ v : ℚ, 10 ^ 11 ≤ v → v < 10 ^ 12 →
        format_value v = some (fmtDecimals 0 (v / 10 ^ 9) ++ "G"))
    ∧ (∀ v : ℚ, v < 0 → format_value v = none)
    ∧ (∀ v : ℚ, 0 < v → v < f64_min_positive_normal → format_value v = none)
    ∧ (∀ v : ℚ, 10 ^ 12 ≤ v → format_value v = none) := by
  have hfm1 : f64_min_positive_normal ≤ 1 := by
    norm_num [f64_min_positive_normal]
  have tier : ∀ v : ℚ, 1 ≤ v → (¬ v < 0)
      ∧ (¬ (v ≠ 0 ∧ |v| < f64_min_positive_normal)) ∧ ¬ v = 0 := by
    intro v hv
    refine ⟨by linarith, ?_, by intro h; rw [h] at hv; norm_num at hv⟩
    rintro ⟨-, habs⟩
    rw [abs_of_nonneg (by linarith)] at habs
    linarith
  refine ⟨?_, ?_, ?_, ?_, ?_, ?_, ?_, ?_, ?_, ?_, ?_, ?_, ?_, ?_, ?_, ?_, ?_, ?_⟩
  · rw [format_value, if_neg (by norm_num), if_neg (by simp), if_pos rfl]
  · rw [format_value, if_neg (by norm_num), if_neg (by norm_num [f64_min_positive_normal]),
      if_neg (by norm_num), if_pos (by norm_num)]
    norm_num [fmtDecimals, roundHalfEven]
    decide
  · rw [format_value, if_neg (by norm_num), if_neg (by norm_num [f64_min_positive_normal]),
      if_neg (by norm_num), if_neg (by norm_num), if_pos (by norm_num)]
    norm_num [fmtDecimals, roundHalfEven]
    decide
  · rw [format_value, if_neg (by norm_num), if_neg (by norm_num [f64_min_positive_normal]),
      if_neg (by norm_num), if_neg (by norm_num), if_neg (by norm_num), if_neg (by norm_num),
      if_pos (by norm_num)]
    norm_num [fmtDecimals, roundHalfEven]
    decide
  · rw [format_value, if_neg (by norm_num), if_neg (by norm_num [f64_min_positive_normal]),
      if_neg (by norm_num), if_neg (by norm_num), if_neg (by norm_num), if_neg (by norm_num),
      if_neg (by norm_num), if_neg (by norm_num), if_neg (by norm_num), if_neg (by norm_num),
      if_pos (by norm_num)]
    norm_num [fmtDecimals, roundHalfEven]
    decide
  · intro v h0 hfm h3
    rw [format_value, if_neg (not_lt.2 h0.le),
      if_neg (by rintro ⟨-, habs⟩; rw [abs_of_pos h0] at habs; linarith),
      if_neg (ne_of_gt h0), if_pos h3]
  · intro v h1 h2
    obtain ⟨ha, hb, hc⟩ := tier v (le_trans (by norm_num) h1)
    rw [format_value, if_neg ha, if_neg hb, if_neg hc,
      if_neg (not_lt.2 h1), if_pos h2]
  · intro v h1 h2
    obtain ⟨ha, hb, hc⟩ := tier v (le_trans (by norm_num) h1)
    rw [format_value, if_neg ha, if_neg hb, if_neg hc,
      if_neg (not_lt.2 (le_trans (by norm_num) h1)), if_neg (not_lt.2 h1), if_pos h2]
  · intro v h1 h2
    obtain ⟨ha, hb, hc⟩ := tier v (le_trans (by norm_num) h1)
    rw [format_value, if_neg ha, if_neg hb, if_neg hc,
      if_neg (not_lt.2 (le_trans (by norm_num) h1)),
      if_neg (not_lt.2 (le_trans (by norm_num) h1)), if_neg (not_lt.2 h1), if_pos h2]
  · intro v h1 h2
    obtain ⟨ha, hb, hc⟩ := tier v (le_trans (by norm_num) h1)
    rw [format_value, if_neg ha, if_neg hb, if_neg hc,
      if_neg (not_lt.2 (le_trans (by norm_num) h1)),
      if_neg (not_lt.2 (le_trans (by norm_num) h1)),
      if_neg (not_lt.2 (le_trans (by norm_num) h1)), if_neg (not_lt.2 h1), if_pos h2]
  · intro v h1 h2
    obtain ⟨ha, hb, hc⟩ := tier v (le_trans (by norm_num) h1)
    rw [format_value, if_neg ha, if_neg hb, if_neg hc,
      if_neg (not_lt.2 (le_trans (by norm_num) h1)),
      if_neg (not_lt.2 (le_trans (by norm_num) h1)),
      if_neg (not_lt.2 (le_trans (by norm_num) h1)),
      if_neg (not_lt.2 (le_trans (by norm_num) h1)), if_neg (not_lt.2 h1), if_pos h2]
  · intro v h1 h2
    obtain ⟨ha, hb, hc⟩ := tier v (le_trans (by norm_num) h1)
    rw [format_value, if_neg ha, if_neg hb, if_neg hc,
      if_neg (not_lt.2 (le_trans (by norm_num) h1)),
      if_neg (not_lt.2 (le_trans (by norm_num) h1)),
      if_neg (not_lt.2 (le_trans (by norm_num) h1)),
      if_neg (not_lt.2 (le_trans (by norm_num) h1)),
      if_neg (not_lt.2 (le_trans (by norm_num) h1)), if_neg (not_lt.2 h1), if_pos h2]
  · intro v h1 h2
    obtain ⟨ha, hb, hc⟩ := tier v (le_trans (by norm_num) h1)
    rw [format_value, if_neg ha, if_neg hb, if_neg hc,
      if_neg (not_lt.2 (le_trans (by norm_num) h1)),
      if_neg (not_lt.2 (le_trans (by norm_num) h1)),
      if_neg (not_lt.2 (le_trans (by norm_num) h1)),
      if_neg (not_lt.2 (le_trans (by norm_num) h1)),
      if_neg (not_lt.2 (le_trans (by norm_num) h1)),
      if_neg (not_lt.2 (le_trans (by norm_num) h1)), if_neg (not_lt.2 h1), if_pos h2]
  · intro v h1 h2
    obtain ⟨ha, hb, hc⟩ := tier v (le_trans (by norm_num) h1)
    rw [format_value, if_neg ha, if_neg hb, if_neg hc,
      if_neg (not_lt.2 (le_trans (by norm_num) h1)),
      if_neg (not_lt.2 (le_trans (by norm_num) h1)),
      if_neg (not_lt.2 (le_trans (by norm_num) h1)),
      if_neg (not_lt.2 (le_trans (by norm_num) h1)),
      if_neg (not_lt.2 (le_trans (by norm_num) h1)),
      if_neg (not_lt.2 (le_trans (by norm_num) h1)),
      if_neg (not_lt.2 (le_trans (by norm_num) h1)), if_neg (not_lt.2 h1), if_pos h2]
  · intro v h1 h2
    obtain ⟨ha, hb, hc⟩ := tier v (le_trans (by norm_num) h1)
    rw [format_value, if_neg ha, if_neg hb, if_neg hc,
      if_neg (not_lt.2 (le_trans (by norm_num) h1)),
      if_neg (not_lt.2 (le_trans (by norm_num) h1)),
      if_neg (not_lt.2 (le_trans (by norm_num) h1)),
      if_neg (not_lt.2 (le_trans (by norm_num) h1)),
      if_neg (not_lt.2 (le_trans (by norm_num) h1)),
      if_neg (not_lt.2 (le_trans (by norm_num) h1)),
      if_neg (not_lt.2 (le_trans (by norm_num) h1)),
      if_neg (not_lt.2 (le_trans (by norm_num) h1)), if_neg (not_lt.2 h1), if_pos h2]
  · intro v hv
    rw [format_value, if_pos hv]
  · intro v hv hlt
    rw [format_value, if_neg (not_lt.2 hv.le),
      if_pos ⟨ne_of_gt hv, by rwa [abs_of_pos hv]⟩]
  · intro v hv
    have hv0 : (0 : ℚ) ≤ v := le_trans (by positivity) hv
    have hne : ¬ (v ≠ 0 ∧ |v| < f64_min_positive_normal) := by
      rintro ⟨-, habs⟩
      rw [abs_of_nonneg hv0] at habs
      have hsmall : f64_min_positive_normal < 10 ^ 12 := by
        norm_num [f64_min_positive_normal]
      linarith
    have hz : ¬ v = 0 := by
      intro h
      rw [h] at hv
      norm_num at hv
    rw [format_value, if_neg (not_lt.2 hv0), if_neg hne, if_neg hz,
      if_neg (not_lt.2 (le_trans (by norm_num) hv)),
      if_neg (not_lt.2 (le_trans (by norm_num) hv)),
      if_neg (not_lt.2 (le_trans (by norm_num) hv)),
      if_neg (not_lt.2 (le_trans (by norm_num) hv)),
      if_neg (not_lt.2 (le_trans (by norm_num) hv)),
      if_neg (not_lt.2 (le_trans (by norm_num) hv)),
      if_neg (not_lt.2 (le_trans (by norm_num) hv)),
      if_neg (not_lt.2 (le_trans (by norm_num) hv)),
      if_neg (not_lt.2 (le_trans (by norm_num) hv)),
      if_neg (not_lt.2 (le_trans (by norm_num) hv))]

/-- Witness for C7: the panic branches at the concrete inputs `-1` (negative),
`2^{-1023}` (subnormal) and `10^12` (too large). -/
theorem format_value_spec_witness :
    format_value (-1) = none ∧ format_value (1 / 2 ^ 1023) = none
      ∧ format_value (10 ^ 12) = none
      ∧ format_value 1500 = some (fmtDecimals 2 ((1500 : ℚ) / 10 ^ 3) ++ "k") := by
  obtain ⟨-, -, -, -, -, -, t2, -, -, -, -, -, -, -, -, hneg, hsub, hbig⟩ :=
    format_value_spec
  exact ⟨hneg (-1) (by norm_num),
    hsub (1 / 2 ^ 1023) (by norm_num) (by norm_num [f64_min_positive_normal]),
    hbig (10 ^ 12) le_rfl,
    t2 1500 (by norm_num) (by norm_num)⟩

/-- Unfolding of a successful `merge_and_sort_files_in_groups` run into its
components. -/
theorem merge_and_sort_eq_some {G P S : Type} [DecidableEq P] (ltP : P → P → Bool)
    (groups : List (G × List (StatisticsFile P S))) (key_bucket_amount : Option ℕ)
    (key_fn : P → ℚ) (merge_key_fn : StatisticsFile P S → P)
    (out : List (G × List (MergedStatisticsFile S))) (mn : Option ℚ) (mx : ℚ)
    (h : merge_and_sort_files_in_groups ltP groups key_bucket_amount key_fn merge_key_fn
      = some (out, mn, mx)) :
    out = sort_groups
        (groups.map (fun gv =>
          (gv.1, merge_group ltP key_bucket_amount
            ((minMaxFold (allKeys groups key_fn)).1.getD 0)
            (minMaxFold (allKeys groups key_fn)).2 key_fn merge_key_fn gv.2)))
        (fun file => file.key)
      ∧ mn = (minMaxFold (allKeys groups key_fn)).1
      ∧ mx = (minMaxFold (allKeys groups key_fn)).2
      ∧ ∀ gv ∈ groups, gv.2 ≠ [] := by
  simp only [merge_and_sort_files_in_groups] at h
  by_cases hall : groups.all (fun gv => !gv.2.isEmpty)
  · rw [if_pos hall] at h
    have h' := Option.some.inj h
    rw [Prod.mk.injEq, Prod.mk.injEq] at h'
    obtain ⟨h1, h2, h3⟩ := h'
    refine ⟨h1.symm, h2.symm, h3.symm, ?_⟩
    intro gv hgv
    have hb := List.all_eq_true.1 hall gv hgv
    simp only [Bool.not_eq_true'] at hb
    intro hnil
    rw [hnil] at hb
    simp at hb
  · rw [if_neg hall] at h
    exact absurd h (by simp)

/-- C9 (amended): for every non-empty collection of groups, the min component
of the `(min_key, max_key)` pair of the bucketer's first phase is the true
minimum of the key projection over all records (its fold starts from the
identity `f64::INFINITY`), but the max component folds from the start value
`0.0` — not from a proper bottom identity — and therefore equals
`max 0 (true maximum)`, which is the true maximum only when the latter is
nonnegative. -/
theorem global_key_range_amended {G P S : Type}
    (groups : List (G × List (StatisticsFile P S))) (key_fn : P → ℚ)
    (hne : allKeys groups key_fn ≠ []) :
    ∃ mn mx : ℚ,
      mn ∈ allKeys groups key_fn ∧ (∀ x ∈ allKeys groups key_fn, mn ≤ x)
      ∧ mx ∈ allKeys groups key_fn ∧ (∀ x ∈ allKeys groups key_fn, x ≤ mx)
      ∧ minMaxFold (allKeys groups key_fn) = (some mn, max 0 mx) := by
  obtain ⟨k, ks, hkk⟩ := List.exists_cons_of_ne_nil hne
  refine ⟨ks.foldl min k, ks.foldl max k, ?_, ?_, ?_, ?_, ?_⟩
  · rw [hkk]
    rcases foldl_min_mem ks k with h | h
    · rw [h]; exact List.mem_cons_self k ks
    · exact List.mem_cons_of_mem k h
  · intro x hx
    rw [hkk] at hx
    obtain ⟨h1, h2⟩ := foldl_min_le ks k
    rcases List.mem_cons.1 hx with rfl | hx
    · exact h1
    · exact h2 x hx
  · rw [hkk]
    rcases foldl_max_mem ks k with h | h
    · rw [h]; exact List.mem_cons_self k ks
    · exact List.mem_cons_of_mem k h
  · intro x hx
    rw [hkk] at hx
    obtain ⟨h1, h2⟩ := foldl_max_ge ks k
    rcases List.mem_cons.1 hx with rfl | hx
    · exact h1
    · exact h2 x hx
  · rw [hkk, minMaxFold_cons]

/-- Witness for the amended C9 at a concrete two-record input with keys `3`
and `7`. -/
theorem global_key_range_amended_witness :
    ∃ mn mx : ℚ,
      mn ∈ allKeys [((0 : ℕ),
          [({ parameters := (3 : ℚ), statistics := () } : StatisticsFile ℚ Unit),
           { parameters := (7 : ℚ), statistics := () }])] (fun p => p)
      ∧ (∀ x ∈ allKeys [((0 : ℕ),
          [({ parameters := (3 : ℚ), statistics := () } : StatisticsFile ℚ Unit),
           { parameters := (7 : ℚ), statistics := () }])] (fun p => p), mn ≤ x)
      ∧ mx ∈ allKeys [((0 : ℕ),
          [({ parameters := (3 : ℚ), statistics := () } : StatisticsFile ℚ Unit),
           { parameters := (7 : ℚ), statistics := () }])] (fun p => p)
      ∧ (∀ x ∈ allKeys [((0 : ℕ),
          [({ parameters := (3 : ℚ), statistics := () } : StatisticsFile ℚ Unit),
           { parameters := (7 : ℚ), statistics := () }])] (fun p => p), x ≤ mx)
      ∧ minMaxFold (allKeys [((0 : ℕ),
          [({ parameters := (3 : ℚ), statistics := () } : StatisticsFile ℚ Unit),
           { parameters := (7 : ℚ), statistics := () }])] (fun p => p))
          = (some mn, max 0 mx) :=
  global_key_range_amended _ _ (by simp [allKeys])

/-- C9 counterexample: at the concrete input of a single record with key
`-1`, the key list of the fold is exactly `[-1]` — so the true maximum is
`-1` — yet the max component of the fold returns `0`, because the fold starts
from `(f64::INFINITY, 0.0)` rather than from a bottom identity for max. -/
theorem global_key_range_counterexample :
    allKeys [((0 : ℕ), [({ parameters := (-1 : ℚ), statistics := () } : StatisticsFile ℚ Unit)])]
        (fun p => p) = [(-1 : ℚ)]
      ∧ (minMaxFold [(-1 : ℚ)]).2 = 0
      ∧ (∀ x ∈ [(-1 : ℚ)], x ≤ -1)
      ∧ (0 : ℚ) ≠ -1 := by
  refine ⟨rfl, ?_, ?_, by norm_num⟩
  · rw [minMaxFold_cons]
    show max 0 (List.foldl max (-1) []) = 0
    rw [List.foldl_nil, max_eq_left (by norm_num)]
  · intro x hx
    rw [List.mem_singleton.1 hx]

/-- The first component of the source's equal-size check fold never changes. -/
theorem checkFold_fst {G F : Type} :
    ∀ (rest : List (G × List F)) (n : ℕ) (b : Bool),
      (rest.foldl (fun (p : ℕ × Bool) gv => (p.1, p.2 && (gv.2.length == p.1))) (n, b)).1 = n
  | [], _, _ => rfl
  | _ :: rest, n, b => checkFold_fst rest n _

/-- The second component of the source's equal-size check fold is `true` iff
the start flag is `true` and every remaining group has length `n`. -/
theorem checkFold_snd {G F : Type} :
    ∀ (rest : List (G × List F)) (n : ℕ) (b : Bool),
      ((rest.foldl (fun (p : ℕ × Bool) gv => (p.1, p.2 && (gv.2.length == p.1))) (n, b)).2
          = true)
        ↔ (b = true ∧ ∀ gv ∈ rest, gv.2.length = n)
  | [], n, b => by simp
  | gv :: rest, n, b => by
    rw [List.foldl_cons, checkFold_snd rest n _]
    simp only [Bool.and_eq_true, beq_iff_eq, List.mem_cons]
    constructor
    · rintro ⟨⟨hb, hlen⟩, hall⟩
      exact ⟨hb, fun gv' hgv' => by
        rcases hgv' with rfl | hgv'
        · exact hlen
        · exact hall gv' hgv'⟩
    · rintro ⟨hb, hall⟩
      exact ⟨⟨hb, hall gv (Or.inl rfl)⟩, fun gv' hgv' => hall gv' (Or.inr hgv')⟩

/-- On nonempty input the grouping loop produces at least one group. -/
theorem raw_groups_ne_nil {G F : Type} [DecidableEq G] (ltG : G → G → Bool)
    (files : List F) (group_name_fn : F → G) (hne : files ≠ []) :
    raw_groups ltG files group_name_fn ≠ [] := by
  obtain ⟨f, fs, rfl⟩ := List.exists_cons_of_ne_nil hne
  rw [raw_groups, List.foldl_cons]
  exact foldl_btreePush_ne_nil ltG group_name_fn fs _
    (btreePush_ne_nil ltG (group_name_fn f) f [])

/-- C5: on a nonempty input, `group_files` returns the grouping when all
groups have the same cardinality, and otherwise fails fast with the
diagnostic listing the name and size of every group. -/
theorem group_files_equal_sizes {G F : Type} [DecidableEq G] (ltG : G → G → Bool)
    (files : List F) (group_name_fn : F → G) (hne : files ≠ []) :
    ((∀ gv ∈ raw_groups ltG files group_name_fn,
        ∀ gv' ∈ raw_groups ltG files group_name_fn, gv.2.length = gv'.2.length) →
      group_files ltG files group_name_fn
        = Except.ok (raw_groups ltG files group_name_fn))
    ∧ ((∃ gv ∈ raw_groups ltG files group_name_fn,
        ∃ gv' ∈ raw_groups ltG files group_name_fn, gv.2.length ≠ gv'.2.length) →
      group_files ltG files group_name_fn
        = Except.error ((raw_groups ltG files group_name_fn).map
            (fun gv => (gv.1, gv.2.length)))) := by
  obtain ⟨g0, rest, hg⟩ : ∃ g0 rest, raw_groups ltG files group_name_fn = g0 :: rest := by
    rcases hr : raw_groups ltG files group_name_fn with - | ⟨g0, rest⟩
    · exact absurd hr (raw_groups_ne_nil ltG files group_name_fn hne)
    · exact ⟨g0, rest, rfl⟩
  constructor
  · intro hall
    rw [hg] at hall
    simp only [group_files, hg]
    rw [if_pos ((checkFold_snd rest g0.2.length true).2
      ⟨rfl, fun gv hgv => hall gv (List.mem_cons_of_mem g0 hgv) g0
        (List.mem_cons_self g0 rest)⟩)]
  · intro hbad
    rw [hg] at hbad
    simp only [group_files, hg]
    rw [if_neg ?hcheck]
    case hcheck =>
      intro hch
      obtain ⟨-, hall⟩ := (checkFold_snd rest g0.2.length true).1 hch
      obtain ⟨gv, hgv, gv', hgv', hneq⟩ := hbad
      have hsz : ∀ e ∈ g0 :: rest, e.2.length = g0.2.length := by
        intro e he
        rcases List.mem_cons.1 he with rfl | he
        · rfl
        · exact hall e he
      exact hneq ((hsz gv hgv).trans (hsz gv' hgv').symm)

/-- Witness for C5: on grouped input `[0, 0, 1]` (group sizes 2 and 1) the
check fails with the full name/size diagnostic; on `[0, 1]` (sizes 1 and 1)
the grouping is returned. -/
theorem group_files_equal_sizes_witness :
    group_files (fun a b => decide (a < b)) [0, 0, 1] (fun n => n)
        = Except.error [(0, 2), (1, 1)]
      ∧ group_files (fun a b => decide (a < b)) [0, 1] (fun n => n)
        = Except.ok [(0, [0]), (1, [1])] :=
  ⟨(group_files_equal_sizes (fun a b => decide (a < b)) [0, 0, 1] (fun n => n)
      (by simp)).2 (by decide),
   (group_files_equal_sizes (fun a b => decide (a < b)) [0, 1] (fun n => n)
      (by simp)).1 (by decide)⟩

/-- The per-group partition-and-fold step conserves records: the contained
statistics of the merged files of one group number exactly the group's
records. -/
theorem merge_group_sum {P S : Type} [DecidableEq P] (ltP : P → P → Bool)
    (key_bucket_amount : Option ℕ) (min_key max_key : ℚ) (key_fn : P → ℚ)
    (merge_key_fn : StatisticsFile P S → P) (group : List (StatisticsFile P S)) :
    ((merge_group ltP key_bucket_amount min_key max_key key_fn merge_key_fn group).map
      (fun mf => mf.contained_statistics.length)).sum = group.length := by
  simp only [merge_group, List.map_map]
  rw [show ((fun mf : MergedStatisticsFile S => mf.contained_statistics.length) ∘
      (fun e : (P × Option ℕ) × List (StatisticsFile P S) =>
        MergedStatisticsFile.from_statistics_files
          ((e.1.2.map (fun (bucketIdx : ℕ) =>
            ((bucketIdx : ℚ) + 0.5) / ((key_bucket_amount.getD 0 : ℕ) : ℚ)
              * (max_key - min_key) + min_key)).getD (key_fn e.1.1)) e.2))
      = fun e => e.2.length from funext fun e => by
        simp [MergedStatisticsFile.from_statistics_files]]
  rw [foldl_btreePush_sum_lengths (mergeKeyLt ltP)
    (fun file => (merge_key_fn file,
      key_bucket_amount.map (fun amount =>
        bucket_index amount min_key max_key (key_fn file.parameters)))) group []]
  simp

/-- C3: whenever `merge_and_sort_files_in_groups` succeeds, every (nonempty)
input group has an output group, under the same name, whose
`contained_statistics` lengths sum to the number of records originally in the
group — the partition-and-fold step loses and duplicates nothing. -/
theorem record_conservation {G P S : Type} [DecidableEq P] (ltP : P → P → Bool)
    (groups : List (G × List (StatisticsFile P S))) (key_bucket_amount : Option ℕ)
    (key_fn : P → ℚ) (merge_key_fn : StatisticsFile P S → P)
    (out : List (G × List (MergedStatisticsFile S))) (mn : Option ℚ) (mx : ℚ)
    (h : merge_and_sort_files_in_groups ltP groups key_bucket_amount key_fn merge_key_fn
      = some (out, mn, mx)) :
    ∀ gv ∈ groups, ∃ merged, (gv.1, merged) ∈ out
      ∧ (merged.map (fun mf => mf.contained_statistics.length)).sum = gv.2.length := by
  obtain ⟨hout, -, -, -⟩ := merge_and_sort_eq_some ltP groups key_bucket_amount key_fn
    merge_key_fn out mn mx h
  intro gv hgv
  refine ⟨sortByKey (fun file => file.key)
    (merge_group ltP key_bucket_amount ((minMaxFold (allKeys groups key_fn)).1.getD 0)
      (minMaxFold (allKeys groups key_fn)).2 key_fn merge_key_fn gv.2), ?_, ?_⟩
  · rw [hout, sort_groups, List.map_map]
    exact List.mem_map_of_mem _ hgv
  · have hperm : (sortByKey (fun file : MergedStatisticsFile S => file.key)
        (merge_group ltP key_bucket_amount ((minMaxFold (allKeys groups key_fn)).1.getD 0)
          (minMaxFold (allKeys groups key_fn)).2 key_fn merge_key_fn gv.2)).Perm
        (merge_group ltP key_bucket_amount ((minMaxFold (allKeys groups key_fn)).1.getD 0)
          (minMaxFold (allKeys groups key_fn)).2 key_fn merge_key_fn gv.2) :=
      sortByKey_perm _ _
    rw [(hperm.map (fun mf => mf.contained_statistics.length)).sum_eq]
    exact merge_group_sum ltP key_bucket_amount _ _ key_fn merge_key_fn gv.2

/-- Witness for C3 at a concrete one-group, one-record input. -/
theorem record_conservation_witness :
    ∃ merged,
      ((0 : ℕ), merged)
          ∈ [((0 : ℕ),
            [({ contained_statistics := [()], key := 0 } : MergedStatisticsFile Unit)])]
        ∧ (merged.map (fun mf => mf.contained_statistics.length)).sum = 1 :=
  record_conservation (fun a b => decide (a < b))
    [((0 : ℕ), [({ parameters := (0 : ℚ), statistics := () } : StatisticsFile ℚ Unit)])]
    none (fun p => p) (fun f => f.parameters)
    [((0 : ℕ), [({ contained_statistics := [()], key := 0 } : MergedStatisticsFile Unit)])]
    (some 0) 0
    (by simp [merge_and_sort_files_in_groups, allKeys, minMaxFold, minFold, maxFold,
      merge_group, btreePush, sort_groups, sortByKey, insertSortedByKey,
      MergedStatisticsFile.from_statistics_files])
    ((0 : ℕ), [({ parameters := (0 : ℚ), statistics := () } : StatisticsFile ℚ Unit)])
    (by simp)

/-- C8 (amended): when a bucket count `B` is requested, every merged file is
built from a nonempty set of records that all share one merge key `p` and one
bucket index `b ≤ B - 1` (the `bucket_index` of each record's own key), and
its stored key is that bucket's midpoint mapped back into the key range,
`(b + 0.5) / B * (max_key - min_key) + min_key`; when no bucket count is
requested, the stored key is the key projection applied to the entry's merge
key, `key_fn (merge_key_fn record)` for the records merged into it — not the
raw key of those records. -/
theorem representative_key_amended {P S : Type} [DecidableEq P] (ltP : P → P → Bool)
    (min_key max_key : ℚ) (key_fn : P → ℚ) (merge_key_fn : StatisticsFile P S → P)
    (group : List (StatisticsFile P S)) :
    (∀ B : ℕ, ∀ mf ∈ merge_group ltP (some B) min_key max_key key_fn merge_key_fn group,
      ∃ b p files, files ≠ []
        ∧ (∀ f ∈ files, merge_key_fn f = p
            ∧ bucket_index B min_key max_key (key_fn f.parameters) = b)
        ∧ b ≤ B - 1
        ∧ mf = MergedStatisticsFile.from_statistics_files
            (((b : ℚ) + 0.5) / (B : ℚ) * (max_key - min_key) + min_key) files)
    ∧ (∀ mf ∈ merge_group ltP none min_key max_key key_fn merge_key_fn group,
      ∃ p files, files ≠ [] ∧ (∀ f ∈ files, merge_key_fn f = p)
        ∧ mf = MergedStatisticsFile.from_statistics_files (key_fn p) files) := by
  constructor
  · intro B mf hmf
    simp only [merge_group] at hmf
    obtain ⟨e, he, hfe⟩ := List.mem_map.1 hmf
    obtain ⟨hne, hkeys⟩ := foldl_btreePush_inv (mergeKeyLt ltP)
      (fun file => (merge_key_fn file,
        (some B).map (fun amount =>
          bucket_index amount min_key max_key (key_fn file.parameters))))
      group [] (by simp) e he
    obtain ⟨y, hy⟩ := List.exists_mem_of_ne_nil _ hne
    have hk := hkeys y hy
    have hky : some (bucket_index B min_key max_key (key_fn y.parameters)) = e.1.2 :=
      congrArg Prod.snd hk
    refine ⟨bucket_index B min_key max_key (key_fn y.parameters), e.1.1, e.2, hne, ?_, ?_, ?_⟩
    · intro f hf
      have hkf := hkeys f hf
      refine ⟨congrArg Prod.fst hkf, ?_⟩
      have hkf2 : some (bucket_index B min_key max_key (key_fn f.parameters)) = e.1.2 :=
        congrArg Prod.snd hkf
      exact Option.some.inj (hkf2.trans hky.symm)
    · simp only [bucket_index]
      exact min_le_right _ _
    · rw [← hfe]
      simp [← hky]
  · intro mf hmf
    simp only [merge_group] at hmf
    obtain ⟨e, he, hfe⟩ := List.mem_map.1 hmf
    obtain ⟨hne, hkeys⟩ := foldl_btreePush_inv (mergeKeyLt ltP)
      (fun file => (merge_key_fn file,
        (none : Option ℕ).map (fun amount =>
          bucket_index amount min_key max_key (key_fn file.parameters))))
      group [] (by simp) e he
    obtain ⟨y, hy⟩ := List.exists_mem_of_ne_nil _ hne
    have hk := hkeys y hy
    refine ⟨e.1.1, e.2, hne, ?_, ?_⟩
    · intro f hf
      exact congrArg Prod.fst (hkeys f hf)
    · have h2 : e.1.2 = none := by rw [← hk]; rfl
      rw [← hfe]
      simp [h2]

/-- Witness for the amended C8: a bucketed merge at `B = 1` over the key
range `[0, 10]` stores the midpoint key, and an unbucketed merge stores the
key projection of the merge key. -/
theorem representative_key_amended_witness :
    (∃ (b : ℕ) (p : ℚ) (files : List (StatisticsFile ℚ Unit)), files ≠ []
      ∧ (∀ f ∈ files, (fun _ => (0 : ℚ)) f = p
          ∧ bucket_index 1 0 10 ((fun q => q) f.parameters) = b)
      ∧ b ≤ 1 - 1
      ∧ ({ contained_statistics := [()], key := 5 } : MergedStatisticsFile Unit)
          = MergedStatisticsFile.from_statistics_files
              (((b : ℚ) + 0.5) / ((1 : ℕ) : ℚ) * (10 - 0) + 0) files)
    ∧ ∃ (p : ℚ) (files : List (StatisticsFile ℚ Unit)), files ≠ []
        ∧ (∀ f ∈ files, (fun _ => (0 : ℚ)) f = p)
        ∧ ({ contained_statistics := [()], key := 0 } : MergedStatisticsFile Unit)
            = MergedStatisticsFile.from_statistics_files ((fun q => q) p) files := by
  constructor
  · refine (representative_key_amended (fun a b => decide (a < b)) 0 10 (fun p => p)
      (fun _ => (0 : ℚ))
      [({ parameters := (5 : ℚ), statistics := () } : StatisticsFile ℚ Unit)]).1 1
      { contained_statistics := [()], key := 5 } ?_
    simp [merge_group, btreePush, MergedStatisticsFile.from_statistics_files, bucket_index]
    norm_num
  · refine (representative_key_amended (fun a b => decide (a < b)) 0 0 (fun q => q)
      (fun _ => (0 : ℚ))
      [({ parameters := (5 : ℚ), statistics := () } : StatisticsFile ℚ Unit)]).2
      { contained_statistics := [()], key := 0 } ?_
    simp [merge_group, btreePush, MergedStatisticsFile.from_statistics_files]

/-- C8 counterexample: in an unbucketed merge whose merge-key projection
clears the field the key projection reads (as the source's `tsalign` report
does, zeroing `cost` while the key is `cost`), the single merged record has
raw key `5` but the stored key is `0 = key_fn(merge_key_fn(record))`, so the
stored key is not the raw key of the records merged into it. -/
theorem representative_key_counterexample :
    (merge_group (fun a b => decide (a < b)) none 0 0 (fun p => p) (fun _ => (0 : ℚ))
        [({ parameters := (5 : ℚ), statistics := () } : StatisticsFile ℚ Unit)]).map
      (fun mf => mf.key) = [0]
    ∧ [({ parameters := (5 : ℚ), statistics := () } : StatisticsFile ℚ Unit)].map
        (fun f => f.parameters) = [5]
    ∧ (0 : ℚ) ≠ 5 := by
  refine ⟨?_, by simp, by norm_num⟩
  simp [merge_group, btreePush, MergedStatisticsFile.from_statistics_files]

/-- C10: with all keys identical (so the global fold yields
`min_key = max_key = m`), bucketing with any requested bucket count `B ≥ 1`
is total — the reachable degenerate division `0.0 / 0.0` yields bucket `0`,
so every record is treated as belonging to the single bucket `0`; rendering
widens the degenerate key axis by the fixed margin `0.5` on each side; and
`merge_and_sort_files_in_groups` succeeds (no fatal error) on any such input
with nonnegative key value. -/
theorem degenerate_key_range (B : ℕ) (hB : 1 ≤ B) (m : ℚ) :
    bucket_index B m m m = 0
    ∧ widen_key_range m m = (m - 0.5, m + 0.5)
    ∧ ∀ (P S G : Type) [DecidableEq P] (ltP : P → P → Bool)
        (groups : List (G × List (StatisticsFile P S))) (key_fn : P → ℚ)
        (merge_key_fn : StatisticsFile P S → P),
        groups ≠ [] → (∀ gv ∈ groups, gv.2 ≠ []) →
        (∀ gv ∈ groups, ∀ f ∈ gv.2, key_fn f.parameters = m) → 0 ≤ m →
        ∃ out, merge_and_sort_files_in_groups ltP groups (some B) key_fn merge_key_fn
          = some (out, some m, m) := by
  refine ⟨?_, ?_, ?_⟩
  · simp only [bucket_index]
    rw [sub_self, zero_mul, zero_div, Int.floor_zero, Int.toNat_zero, max_self,
      min_eq_left (Nat.zero_le _)]
  · rw [widen_key_range, if_pos rfl]
  · intro P S G inst ltP groups key_fn merge_key_fn hg hne hkeys hm
    have hflat : ∀ x ∈ allKeys groups key_fn, x = m := by
      intro x hx
      rw [allKeys] at hx
      obtain ⟨gv, hgv, hx'⟩ := List.mem_flatMap.1 hx
      obtain ⟨f, hf, rfl⟩ := List.mem_map.1 hx'
      exact hkeys gv hgv f hf
    have hnonnil : allKeys groups key_fn ≠ [] := by
      obtain ⟨gv, gs, rfl⟩ := List.exists_cons_of_ne_nil hg
      obtain ⟨f, fs, hgv2⟩ := List.exists_cons_of_ne_nil
        (hne gv (List.mem_cons_self gv gs))
      apply List.ne_nil_of_mem (a := key_fn f.parameters)
      rw [allKeys]
      refine List.mem_flatMap.2 ⟨gv, List.mem_cons_self gv gs, ?_⟩
      rw [hgv2]
      exact List.mem_map_of_mem _ (List.mem_cons_self f fs)
    have hfold : minMaxFold (allKeys groups key_fn) = (some m, m) := by
      obtain ⟨k, ks, hkk⟩ := List.exists_cons_of_ne_nil hnonnil
      have hkm : k = m := hflat k (by rw [hkk]; exact List.mem_cons_self k ks)
      have hksm : ∀ x ∈ ks, x = m := fun x hx =>
        hflat x (by rw [hkk]; exact List.mem_cons_of_mem k hx)
      rw [hkk, minMaxFold_cons, hkm, foldl_min_const ks m hksm, foldl_max_const ks m hksm,
        max_eq_right hm]
    have hall : groups.all (fun gv => !gv.2.isEmpty) = true := by
      rw [List.all_eq_true]
      intro gv hgv
      simp only [Bool.not_eq_true']
      rw [Bool.eq_false_iff]
      intro hemp
      exact hne gv hgv (List.isEmpty_iff.1 hemp)
    refine ⟨sort_groups
        (groups.map (fun gv =>
          (gv.1, merge_group ltP (some B) ((minMaxFold (allKeys groups key_fn)).1.getD 0)
            (minMaxFold (allKeys groups key_fn)).2 key_fn merge_key_fn gv.2)))
        (fun file => file.key), ?_⟩
    simp only [merge_and_sort_files_in_groups]
    rw [if_pos hall, hfold]

/-- Witness for C10 at `B = 1`, a single group with a single record of key
`3`. -/
theorem degenerate_key_range_witness :
    bucket_index 1 3 3 3 = 0
    ∧ widen_key_range 3 3 = (3 - 0.5, 3 + 0.5)
    ∧ ∃ out, merge_and_sort_files_in_groups (fun a b => decide (a < b))
        [((0 : ℕ), [({ parameters := (3 : ℚ), statistics := () } : StatisticsFile ℚ Unit)])]
        (some 1) (fun p => p) (fun f => f.parameters)
        = some (out, some 3, 3) :=
  ⟨(degenerate_key_range 1 le_rfl 3).1,
   (degenerate_key_range 1 le_rfl 3).2.1,
   (degenerate_key_range 1 le_rfl 3).2.2 ℚ Unit ℕ (fun a b => decide (a < b))
     [((0 : ℕ), [({ parameters := (3 : ℚ), statistics := () } : StatisticsFile ℚ Unit)])]
     (fun p => p) (fun f => f.parameters)
     (by simp) (by simp) (by simp) (by norm_num)⟩

/-- C6: the epsilon threshold equals
`max(|min_value|, |max_value|, max_value - min_value) * 1e-12`, where
`(min_value, max_value)` is the single global fold over the chosen value of
every merged file of every group (not a per-box quantity); every quartile
value below the threshold collapses to exactly `0` with no axis transform
applied, while values at or above it get the axis transform.  The last
conjunct is the spec's concrete instance: a global field range `[0, 10^6]`
yields the threshold `10^6 * 10^{-12} = 10^{-6}`. -/
theorem epsilon_suppression (group_values : List (List ℚ)) (value_transform : AxisTransform)
    (v : ℚ) :
    global_value_epsilon group_values
        = max (max |(minMaxValues group_values.flatten).1| |(minMaxValues group_values.flatten).2|)
            ((minMaxValues group_values.flatten).2 - (minMaxValues group_values.flatten).1)
          / 10 ^ 12
    ∧ (v < global_value_epsilon group_values →
        suppress_then_transform value_transform (global_value_epsilon group_values) v = 0)
    ∧ (global_value_epsilon group_values ≤ v →
        suppress_then_transform value_transform (global_value_epsilon group_values) v
          = value_transform.apply (v : ℝ))
    ∧ global_value_epsilon [[0, 10 ^ 6]] = 1 / 10 ^ 6 := by
  refine ⟨?_, ?_, ?_, ?_⟩
  · simp only [global_value_epsilon, value_epsilon]
    ring
  · intro h
    rw [suppress_then_transform, if_pos h]
  · intro h
    rw [suppress_then_transform, if_neg (not_lt.2 h)]
  · simp only [global_value_epsilon, minMaxValues, value_epsilon, f64_MAX, List.flatten,
      List.foldl]
    norm_num

/-- Witness for C6: with global field range `[0, 10^6]` the threshold is
`10^{-6}`, and the quartile value `10^{-7}` (below the threshold) collapses to
exactly `0` before the transform. -/
theorem epsilon_suppression_witness :
    suppress_then_transform AxisTransform.Log (global_value_epsilon [[0, 10 ^ 6]])
        (1 / 10 ^ 7) = 0
      ∧ global_value_epsilon [[0, 10 ^ 6]] = 1 / 10 ^ 6 :=
  ⟨(epsilon_suppression [[0, 10 ^ 6]] AxisTransform.Log (1 / 10 ^ 7)).2.1
      (by rw [(epsilon_suppression [[0, 10 ^ 6]] AxisTransform.Log (1 / 10 ^ 7)).2.2.2]
          norm_num),
   (epsilon_suppression [[0, 10 ^ 6]] AxisTransform.Log 0).2.2.2⟩

end TemplateSwitchStatistics
